import Mathlib

/-!
Verification of the language-selector scoring engine
(`src/vs/editor/common/languageSelector.ts`) and the indentation line
processor (`src/vs/editor/common/languages/supports/indentationLineProcessor.ts`).

The TypeScript code is shallowly embedded: records become structures,
TS union types become inductives, `undefined` becomes `Option`, and TS
truthiness tests (`if (scheme)`, `if (notebook)`, ...) are spelled out
(a `string` is truthy iff nonempty, an object is always truthy, a
`boolean | undefined` is truthy iff `some true`).
-/

namespace LanguageSelector

/-- A URI as consumed by the scorer: only `scheme` and `fsPath` are read. -/
structure URI where
  scheme : String
  fsPath : String
deriving DecidableEq

/-- `string | IRelativePattern` from `vs/base/common/glob`. A relative
pattern is an object with a `base` path and a `pattern`. -/
inductive GlobPattern where
  | str (s : String)
  | relative (base : String) (pat : String)
deriving DecidableEq

/-- The `NotebookFilter` record of `languageSelector.ts`. -/
structure NotebookFilter where
  notebookType : Option String
  scheme : Option String
  pattern : Option GlobPattern
deriving DecidableEq

/-- The `notebook` field of a `LanguageFilter`: `string | NotebookFilter`. -/
inductive NotebookSelector where
  | str (s : String)
  | filter (f : NotebookFilter)
deriving DecidableEq

/-- The `LanguageFilter` record of `languageSelector.ts`. -/
structure LanguageFilter where
  language : Option String
  scheme : Option String
  pattern : Option GlobPattern
  notebook : Option NotebookSelector
  hasAccessToAllModels : Option Bool
  exclusive : Option Bool
deriving DecidableEq

/-- One element of a selector: `string | LanguageFilter`. -/
inductive SingleSelector where
  | str (s : String)
  | filter (f : LanguageFilter)
deriving DecidableEq

/-- `LanguageSelector = string | LanguageFilter | ReadonlyArray<string | LanguageFilter>`. -/
inductive Selector where
  | single (s : SingleSelector)
  | arr (xs : List SingleSelector)
deriving DecidableEq

/-- The candidate's notebook association `{ notebookUri, notebookType }`. -/
structure NotebookInfo where
  notebookUri : URI
  notebookType : String
deriving DecidableEq

/-- Environment for the two external functions the scorer calls:
`match` from `vs/base/common/glob` and `normalize` from
`vs/base/common/path`.  The scoring logic is proved for every
environment; concrete instances fix both. -/
structure Env where
  matchGlob : GlobPattern → String → Bool
  normalize : String → String

/-- TS truthiness of a `string | undefined` field: present and nonempty. -/
def strTruthy : Option String → Bool
  | none => false
  | some s => s ≠ ""

/-- TS truthiness of a `(string | IRelativePattern) | undefined` field:
an object is always truthy, a string iff nonempty. -/
def patTruthy : Option GlobPattern → Bool
  | none => false
  | some (.str s) => s ≠ ""
  | some (.relative _ _) => true

/-- TS truthiness of the `notebook` field: an object is always truthy,
a string iff nonempty. -/
def nbTruthy : Option NotebookSelector → Bool
  | none => false
  | some (.str s) => s ≠ ""
  | some (.filter _) => true

/-- TS truthiness of a `boolean | undefined` field. -/
def boolTruthy : Option Bool → Bool
  | some b => b
  | none => false

/-- The `if (scheme) { ... }` block of `_scoreOne`, as a step on the
running `ret` value; `none` is the early `return 0`. -/
def schemeGate (scheme : Option String) (candidateUri : URI) (ret : Nat) : Option Nat :=
  if strTruthy scheme then
    let s := scheme.getD ""
    if s = candidateUri.scheme then some 10
    else if s = "*" then some 5
    else none
  else some ret

/-- The `if (language) { ... }` block of `_scoreOne`. -/
def languageGate (language : Option String) (candidateLanguage : String) (ret : Nat) : Option Nat :=
  if strTruthy language then
    let l := language.getD ""
    if l = candidateLanguage then some 10
    else if l = "*" then some (max ret 5)
    else none
  else some ret

/-- The match test of the `if (pattern) { ... }` block of `_scoreOne`:
normalize a relative pattern's base, then test strict equality with
`fsPath` (only a string pattern can be strictly equal) or a glob match. -/
def patternMatches (env : Env) (p : GlobPattern) (candidateUri : URI) : Bool :=
  let normalizedPattern : GlobPattern :=
    match p with
    | .str s => .str s
    | .relative base pat => .relative (env.normalize base) pat
  let strictEq : Bool :=
    match normalizedPattern with
    | .str s => s = candidateUri.fsPath
    | .relative _ _ => false
  strictEq || env.matchGlob normalizedPattern candidateUri.fsPath

/-- The `if (pattern) { ... }` block of `_scoreOne`. -/
def patternGate (env : Env) (pattern : Option GlobPattern) (candidateUri : URI) (ret : Nat) :
    Option Nat :=
  if patTruthy pattern then
    if patternMatches env (pattern.getD (.str "")) candidateUri then some 10
    else none
  else some ret

/-- `_scoreOne(scheme, language, pattern, candidateUri, candidateLanguage)`:
the three gates run in order on `ret = 0`; an early `return 0` aborts. -/
def scoreOne (env : Env) (scheme language : Option String) (pattern : Option GlobPattern)
    (candidateUri : URI) (candidateLanguage : String) : Nat :=
  match schemeGate scheme candidateUri 0 with
  | none => 0
  | some r1 =>
    match languageGate language candidateLanguage r1 with
    | none => 0
    | some r2 =>
      match patternGate env pattern candidateUri r2 with
      | none => 0
      | some r3 => r3

/-- The notebook sub-score: `_scoreOne` applied to the notebook clause
and the candidate's notebook association. -/
def notebookScoreOf (env : Env) (nb : NotebookSelector) (info : NotebookInfo) : Nat :=
  match nb with
  | .str s => scoreOne env none (some s) none info.notebookUri info.notebookType
  | .filter f => scoreOne env f.scheme f.notebookType f.pattern info.notebookUri info.notebookType

/-- `score` on a single (non-array) selector: the string branch and the
filter branch of `languageSelector.ts`. -/
def scoreSingle (env : Env) (sel : SingleSelector) (candidateUri : URI)
    (candidateLanguage : String) (candidateIsSynchronized : Bool)
    (candidateNotebookInfo : Option NotebookInfo) : Nat :=
  match sel with
  | .str s =>
    if !candidateIsSynchronized then 0
    else if s = "*" then 5
    else if s = candidateLanguage then 10
    else 0
  | .filter f =>
    if !candidateIsSynchronized && !boolTruthy f.hasAccessToAllModels then 0
    else if nbTruthy f.notebook then
      match candidateNotebookInfo with
      | none => 0
      | some info =>
        let notebookScore := notebookScoreOf env (f.notebook.getD (.str "")) info
        if notebookScore = 0 then 0
        else if !strTruthy f.scheme && !strTruthy f.language && !patTruthy f.pattern then
          notebookScore
        else
          let documentScore := scoreOne env f.scheme f.language f.pattern candidateUri candidateLanguage
          if documentScore = 0 then 0
          else max notebookScore documentScore
    else
      scoreOne env f.scheme f.language f.pattern candidateUri candidateLanguage

/-- The array loop of `score`: keep the running maximum in `ret`, return
`10` as soon as an element reaches it. -/
def scoreArr (env : Env) (xs : List SingleSelector) (candidateUri : URI)
    (candidateLanguage : String) (candidateIsSynchronized : Bool)
    (candidateNotebookInfo : Option NotebookInfo) (ret : Nat) : Nat :=
  match xs with
  | [] => ret
  | x :: rest =>
    let value := scoreSingle env x candidateUri candidateLanguage candidateIsSynchronized candidateNotebookInfo
    if value = 10 then value
    else scoreArr env rest candidateUri candidateLanguage candidateIsSynchronized candidateNotebookInfo (max ret value)

/-- `score(selector, candidateUri, candidateLanguage, candidateIsSynchronized,
candidateNotebookInfo)` of `languageSelector.ts`; `none` is `undefined`. -/
def score (env : Env) (selector : Option Selector) (candidateUri : URI)
    (candidateLanguage : String) (candidateIsSynchronized : Bool)
    (candidateNotebookInfo : Option NotebookInfo) : Nat :=
  match selector with
  | none => 0
  | some (.arr xs) =>
    scoreArr env xs candidateUri candidateLanguage candidateIsSynchronized candidateNotebookInfo 0
  | some (.single s) =>
    scoreSingle env s candidateUri candidateLanguage candidateIsSynchronized candidateNotebookInfo

/-- A concrete environment for sanity tests and counterexamples: the
glob matcher rejects everything, `normalize` is the identity. -/
def env0 : Env := ⟨fun _ _ => false, id⟩

/-- Run a list of gates in order on a running value; a `none` is the
early `return 0` of `_scoreOne`. -/
def runGates : List (Nat → Option Nat) → Nat → Nat
  | [], r => r
  | g :: gs, r =>
    match g r with
    | none => 0
    | some r2 => runGates gs r2

/-- A gate of an absent (falsy) field: it passes `ret` through. -/
def GateId (g : Nat → Option Nat) : Prop := ∀ r, g r = some r

/-- A failing gate: it vetoes whatever the running value is. -/
def GateVeto (g : Nat → Option Nat) : Prop := ∀ r, g r = none

/-- A succeeding gate of a present field: it yields a value ≥ 5. -/
def GateRaise (g : Nat → Option Nat) : Prop := ∀ r, ∃ v, g r = some v ∧ 5 ≤ v

/-- Every gate of `_scoreOne` is of one of the three kinds. -/
def GateOk (g : Nat → Option Nat) : Prop := GateId g ∨ GateVeto g ∨ GateRaise g

/-- The scores the engine can produce. -/
def isScoreVal (n : Nat) : Prop := n = 0 ∨ n = 5 ∨ n = 10

end LanguageSelector

namespace IndentationLineProcessor

/-- `StandardTokenType` from `encodedTokenAttributes.ts`. -/
inductive StandardTokenType where
  | Other
  | Comment
  | String
  | RegEx
deriving DecidableEq

/-- One token of a line: its text, its standard token type and its
metadata word.  End offsets are the running sums of the text lengths,
exactly the interface `IViewLineTokens` exposes through
`getTokenText` / `getEndOffset` / `getMetadata` / `getStandardTokenType`. -/
structure Token where
  text : List Char
  tokenType : StandardTokenType
  metadata : Nat
deriving DecidableEq

/-- A line's token table together with the language id that
`tokens.getLanguageId(0)` reports (lines are mono-lingual per call). -/
structure ViewLineTokens where
  tokens : List Token
  languageId : String
deriving DecidableEq

/-- `tokens.getLineContent()`: the concatenation of the token texts. -/
def ViewLineTokens.getLineContent (t : ViewLineTokens) : List Char :=
  (t.tokens.map Token.text).flatten

/-- End offsets of a token list starting at `start`, paired with the
metadata, i.e. the observable (endOffset, metadata) table. -/
def tokenPairsFrom (start : Nat) : List Token → List (Nat × Nat)
  | [] => []
  | t :: rest => (start + t.text.length, t.metadata) :: tokenPairsFrom (start + t.text.length) rest

/-- The (endOffset, metadata) table of an unprocessed token list. -/
def ViewLineTokens.toPairs (t : ViewLineTokens) : List (Nat × Nat) :=
  tokenPairsFrom 0 t.tokens

/-- One bracket entry of a language configuration: its `open` strings
and its `close` strings. -/
structure BracketPair where
  opens : List (List Char)
  close : List (List Char)
deriving DecidableEq

/-- The language configuration service, restricted to what
`getProcessedLineAndTokens` reads: per language id, the optional
bracket list (`getLanguageConfiguration(languageId).brackets.brackets`). -/
structure LanguageConfigService where
  brackets : String → Option (List BracketPair)

/-- Remove every occurrence of the pattern `p` from `s`, scanning left
to right and skipping past each match: the semantics of the global
regex replace `line.replace(new RegExp(escapeStringForRegex(bracket), 'g'), '')`
with every character of the bracket escaped to match literally. -/
def removeAllOcc (p : List Char) (s : List Char) : List Char :=
  match s with
  | [] => []
  | c :: rest =>
    if h : p ≠ [] ∧ p.isPrefixOf (c :: rest) then
      removeAllOcc p ((c :: rest).drop p.length)
    else
      c :: removeAllOcc p rest
termination_by s.length
decreasing_by
  · simp only [List.length_drop, List.length_cons]
    have hp : 0 < p.length := List.length_pos.mpr h.1
    omega
  · simp

/-- `removeBracketsFromText`: strip every open bracket, then every
close bracket, each by a global replace. -/
def removeBracketsFromText (openBrackets closedBrackets : List (List Char))
    (line : List Char) : List Char :=
  closedBrackets.foldl (fun acc b => removeAllOcc b acc)
    (openBrackets.foldl (fun acc b => removeAllOcc b acc) line)

/-- `isTokenTypeToProcess`: strings, regexes and comments are processed. -/
def isTokenTypeToProcess : StandardTokenType → Bool
  | .String => true
  | .RegEx => true
  | .Comment => true
  | .Other => false

/-- The token loop of `getProcessedLineAndTokens`.  `origEnd` is the
original end offset of the tokens already consumed and `offset` the
characters removed so far.  Each token first records
`(getEndOffset(tokenIndex) - offset, metadata)` and only then, for
string/regex/comment tokens, appends the bracket-stripped text and adds
the removed count to `offset`. -/
def processTokens (openBrackets closedBrackets : List (List Char)) :
    List Token → Nat → Nat → List Char × List (Nat × Nat)
  | [], _, _ => ([], [])
  | t :: rest, origEnd, offset =>
    let newOrigEnd := origEnd + t.text.length
    let endOffset := newOrigEnd - offset
    if isTokenTypeToProcess t.tokenType then
      let processedText := removeBracketsFromText openBrackets closedBrackets t.text
      let r := processTokens openBrackets closedBrackets rest newOrigEnd
        (offset + (t.text.length - processedText.length))
      (processedText ++ r.1, (endOffset, t.metadata) :: r.2)
    else
      let r := processTokens openBrackets closedBrackets rest newOrigEnd offset
      (t.text ++ r.1, (endOffset, t.metadata) :: r.2)

/-- The processed line and its rebuilt (endOffset, metadata) table. -/
structure ProcessedLineData where
  processedLine : List Char
  processedLineTokens : List (Nat × Nat)
deriving DecidableEq

/-- `IndentationLineProcessor.getProcessedLineAndTokens(tokens)`: fetch
the bracket configuration of the line's language; without one, pass the
input through unchanged; otherwise flatten the open and close bracket
strings and run the token loop. -/
def getProcessedLineAndTokens (svc : LanguageConfigService) (tokens : ViewLineTokens) :
    ProcessedLineData :=
  match svc.brackets tokens.languageId with
  | none => ⟨tokens.getLineContent, tokens.toPairs⟩
  | some brackets =>
    let openBrackets := (brackets.map BracketPair.opens).flatten
    let closedBrackets := (brackets.map BracketPair.close).flatten
    let r := processTokens openBrackets closedBrackets tokens.tokens 0 0
    ⟨r.1, r.2⟩

/-- Strip a list of bracket strings from `s` in order, each by a global
replace: the `forEach` loops of `removeBracketsFromText`. -/
def removeList (l : List (List Char)) (s : List Char) : List Char :=
  l.foldl (fun acc b => removeAllOcc b acc) s

/-- Modelled from the spec: the context that
`IndentationContextProcessor._getProcessedPreviousLine` reads through the
helpers `createScopedLineTokens`, `doesScopeStartAtOffsetZero`,
`getLineMaxColumn` and `sliceAndInflate`, which are not part of the
sampled sources.  It carries the range's start line number, the current
scope's language id and whether that scope starts at column offset 0 on
its own line, the language id of the scope at the end column of the
previous line, and the previous line's token slice for that scope. -/
structure ScopedContext where
  startLineNumber : Nat
  languageId : String
  startsAtOffsetZero : Bool
  prevLineEndLanguageId : String
  prevSlicedTokens : ViewLineTokens

/-- Modelled from the spec: the `nullProcessedData` fragment
(`LineTokens.createEmpty('', codec)`) — the empty string with an empty
token set. -/
def nullProcessedData : ProcessedLineData := ⟨[], []⟩

/-- `IndentationContextProcessor._getProcessedPreviousLine`: return the
null fragment when the previous line number is 0, when the scope does
not start at offset zero, or when the language does not continue on the
previous line; otherwise process the previous line's scope slice. -/
def getProcessedPreviousLine (svc : LanguageConfigService) (ctx : ScopedContext) :
    ProcessedLineData :=
  let previousLineNumber := ctx.startLineNumber - 1
  if previousLineNumber = 0 then nullProcessedData
  else if !ctx.startsAtOffsetZero then nullProcessedData
  else if ctx.languageId ≠ ctx.prevLineEndLanguageId then nullProcessedData
  else getProcessedLineAndTokens svc ctx.prevSlicedTokens

/-- A configuration whose every language has brackets `(` and `)`. -/
def svcParen : LanguageConfigService :=
  ⟨fun _ => some [⟨[['(']], [[')']]⟩]⟩

/-- A configuration with no brackets for any language. -/
def svcNone : LanguageConfigService := ⟨fun _ => none⟩

/-- Open brackets `ab` and `b` (no close brackets), in that order. -/
def svcAB : LanguageConfigService := ⟨fun _ => some [⟨[['a', 'b'], ['b']], []⟩]⟩

/-- Open brackets `b` and `ab` (no close brackets), in that order. -/
def svcBA : LanguageConfigService := ⟨fun _ => some [⟨[['b'], ['a', 'b']], []⟩]⟩

/-- Bracket pairs `()` then `[]`. -/
def svcTwo : LanguageConfigService :=
  ⟨fun _ => some [⟨[['(']], [[')']]⟩, ⟨[['[']], [[']']]⟩]⟩

/-- Bracket pairs `[]` then `()`. -/
def svcTwoR : LanguageConfigService :=
  ⟨fun _ => some [⟨[['[']], [[']']]⟩, ⟨[['(']], [[')']]⟩]⟩

end IndentationLineProcessor

namespace LanguageSelector

lemma isScoreVal_max {a b : Nat} (ha : isScoreVal a) (hb : isScoreVal b) :
    isScoreVal (max a b) := by
  rcases ha with h | h | h <;> rcases hb with h' | h' | h' <;> simp [isScoreVal, h, h']

lemma isScoreVal_le_ten {a : Nat} (ha : isScoreVal a) : a ≤ 10 := by
  rcases ha with h | h | h <;> omega

lemma schemeGate_val {scheme : Option String} {uri : URI} {r v : Nat}
    (hr : isScoreVal r) (h : schemeGate scheme uri r = some v) : isScoreVal v := by
  simp only [schemeGate] at h
  split at h
  · split at h
    · simp_all [isScoreVal]
    · split at h
      · simp_all [isScoreVal]
      · simp_all
  · simp_all

lemma languageGate_val {language : Option String} {cl : String} {r v : Nat}
    (hr : isScoreVal r) (h : languageGate language cl r = some v) : isScoreVal v := by
  simp only [languageGate] at h
  split at h
  · split at h
    · simp_all [isScoreVal]
    · split at h
      · have := isScoreVal_max hr (show isScoreVal 5 by simp [isScoreVal])
        simp_all
      · simp_all
  · simp_all

lemma patternGate_val {env : Env} {pattern : Option GlobPattern} {uri : URI} {r v : Nat}
    (hr : isScoreVal r) (h : patternGate env pattern uri r = some v) : isScoreVal v := by
  simp only [patternGate] at h
  split at h
  · split at h
    · simp_all [isScoreVal]
    · simp_all
  · simp_all

lemma scoreOne_val (env : Env) (scheme language : Option String) (pattern : Option GlobPattern)
    (uri : URI) (cl : String) : isScoreVal (scoreOne env scheme language pattern uri cl) := by
  unfold scoreOne
  have h0 : isScoreVal 0 := by simp [isScoreVal]
  split
  · exact h0
  · rename_i r1 h1
    split
    · exact h0
    · rename_i r2 h2
      split
      · exact h0
      · rename_i r3 h3
        exact patternGate_val (languageGate_val (schemeGate_val h0 h1) h2) h3

lemma notebookScoreOf_val (env : Env) (nb : NotebookSelector) (info : NotebookInfo) :
    isScoreVal (notebookScoreOf env nb info) := by
  unfold notebookScoreOf
  split <;> apply scoreOne_val

lemma scoreSingle_val (env : Env) (sel : SingleSelector) (uri : URI) (cl : String)
    (sync : Bool) (nb : Option NotebookInfo) :
    isScoreVal (scoreSingle env sel uri cl sync nb) := by
  simp only [scoreSingle]
  have h0 : isScoreVal 0 := by simp [isScoreVal]
  split
  · split
    · exact h0
    · split
      · simp [isScoreVal]
      · split
        · simp [isScoreVal]
        · exact h0
  · split
    · exact h0
    · split
      · split
        · exact h0
        · split
          · exact h0
          · split
            · apply notebookScoreOf_val
            · split
              · exact h0
              · exact isScoreVal_max (notebookScoreOf_val _ _ _) (scoreOne_val _ _ _ _ _ _)
      · apply scoreOne_val

lemma scoreArr_val (env : Env) (xs : List SingleSelector) (uri : URI) (cl : String)
    (sync : Bool) (nb : Option NotebookInfo) (ret : Nat) (hr : isScoreVal ret) :
    isScoreVal (scoreArr env xs uri cl sync nb ret) := by
  induction xs generalizing ret with
  | nil => simpa [scoreArr] using hr
  | cons x rest ih =>
    simp only [scoreArr]
    split
    · simp_all [isScoreVal]
    · exact ih _ (isScoreVal_max hr (scoreSingle_val env x uri cl sync nb))

lemma score_val (env : Env) (selector : Option Selector) (uri : URI) (cl : String)
    (sync : Bool) (nb : Option NotebookInfo) :
    isScoreVal (score env selector uri cl sync nb) := by
  unfold score
  split
  · simp [isScoreVal]
  · exact scoreArr_val env _ uri cl sync nb 0 (by simp [isScoreVal])
  · apply scoreSingle_val

lemma scoreOne_eq_runGates (env : Env) (scheme language : Option String)
    (pattern : Option GlobPattern) (uri : URI) (cl : String) :
    scoreOne env scheme language pattern uri cl =
      runGates [schemeGate scheme uri, languageGate language cl, patternGate env pattern uri] 0 :=
  rfl

lemma schemeGate_ok (scheme : Option String) (uri : URI) : GateOk (schemeGate scheme uri) := by
  by_cases ht : strTruthy scheme = true
  · by_cases h1 : scheme.getD "" = uri.scheme
    · exact Or.inr (Or.inr fun r => ⟨10, by simp [schemeGate, ht, h1], by omega⟩)
    · by_cases h2 : scheme.getD "" = "*"
      · refine Or.inr (Or.inr fun r => ⟨5, ?_, by omega⟩)
        rw [h2] at h1
        simp [schemeGate, ht, h1, h2]
      · exact Or.inr (Or.inl fun r => by simp [schemeGate, ht, h1, h2])
  · exact Or.inl fun r => by simp [schemeGate, ht]

lemma languageGate_ok (language : Option String) (cl : String) :
    GateOk (languageGate language cl) := by
  by_cases ht : strTruthy language = true
  · by_cases h1 : language.getD "" = cl
    · exact Or.inr (Or.inr fun r => ⟨10, by simp [languageGate, ht, h1], by omega⟩)
    · by_cases h2 : language.getD "" = "*"
      · refine Or.inr (Or.inr fun r => ⟨max r 5, ?_, le_max_right r 5⟩)
        rw [h2] at h1
        simp [languageGate, ht, h1, h2]
      · exact Or.inr (Or.inl fun r => by simp [languageGate, ht, h1, h2])
  · exact Or.inl fun r => by simp [languageGate, ht]

lemma patternGate_ok (env : Env) (pattern : Option GlobPattern) (uri : URI) :
    GateOk (patternGate env pattern uri) := by
  by_cases ht : patTruthy pattern = true
  · by_cases hm : patternMatches env (pattern.getD (.str "")) uri = true
    · exact Or.inr (Or.inr fun r => ⟨10, by simp [patternGate, ht, hm], by omega⟩)
    · exact Or.inr (Or.inl fun r => by simp [patternGate, ht, hm])
  · exact Or.inl fun r => by simp [patternGate, ht]

lemma gateId_not_veto {g : Nat → Option Nat} (h : GateId g) : ¬ GateVeto g := by
  intro hv
  have := h 0
  rw [hv 0] at this
  exact Option.noConfusion this

lemma gateRaise_not_veto {g : Nat → Option Nat} (h : GateRaise g) : ¬ GateVeto g := by
  intro hv
  obtain ⟨v, hv', _⟩ := h 0
  rw [hv 0] at hv'
  exact Option.noConfusion hv'

lemma gateRaise_not_id {g : Nat → Option Nat} (h : GateRaise g) : ¬ GateId g := by
  intro hi
  obtain ⟨v, hv', hge⟩ := h 0
  rw [hi 0] at hv'
  injection hv' with h'
  omega

/-- A gate run is zero exactly when some gate vetoes, or every gate is a
pass-through and the start value is zero.  Both conditions only mention
membership, so they are stable under permutation of the gate list. -/
lemma runGates_eq_zero_iff (l : List (Nat → Option Nat)) (hl : ∀ g ∈ l, GateOk g) (r : Nat) :
    runGates l r = 0 ↔ (∃ g ∈ l, GateVeto g) ∨ ((∀ g ∈ l, GateId g) ∧ r = 0) := by
  induction l generalizing r with
  | nil => simp [runGates]
  | cons g gs ih =>
    have hg : GateOk g := hl g (List.mem_cons_self g gs)
    have hgs : ∀ g' ∈ gs, GateOk g' := fun g' h' => hl g' (List.mem_cons_of_mem g h')
    rcases hg with hid | hveto | hraise
    · rw [show runGates (g :: gs) r = runGates gs r by rw [runGates, hid r]]
      rw [ih hgs r]
      constructor
      · rintro (⟨g', hg', hv⟩ | ⟨hall, hr⟩)
        · exact Or.inl ⟨g', List.mem_cons_of_mem g hg', hv⟩
        · refine Or.inr ⟨?_, hr⟩
          intro g' hg'
          rcases List.mem_cons.mp hg' with h' | h'
          · exact h' ▸ hid
          · exact hall g' h'
      · rintro (⟨g', hg', hv⟩ | ⟨hall, hr⟩)
        · rcases List.mem_cons.mp hg' with h' | h'
          · exact absurd hv (h' ▸ gateId_not_veto hid)
          · exact Or.inl ⟨g', h', hv⟩
        · exact Or.inr ⟨fun g' h' => hall g' (List.mem_cons_of_mem g h'), hr⟩
    · rw [show runGates (g :: gs) r = 0 by rw [runGates, hveto r]]
      simp only [true_iff, eq_self_iff_true]
      exact Or.inl ⟨g, List.mem_cons_self g gs, hveto⟩
    · obtain ⟨v, hv, hge⟩ := hraise r
      rw [show runGates (g :: gs) r = runGates gs v by rw [runGates, hv]]
      rw [ih hgs v]
      constructor
      · rintro (⟨g', hg', hv'⟩ | ⟨hall, hr⟩)
        · exact Or.inl ⟨g', List.mem_cons_of_mem g hg', hv'⟩
        · omega
      · rintro (⟨g', hg', hv'⟩ | ⟨hall, hr⟩)
        · rcases List.mem_cons.mp hg' with h' | h'
          · exact absurd hv' (h' ▸ gateRaise_not_veto hraise)
          · exact Or.inl ⟨g', h', hv'⟩
        · exact absurd (hall g (List.mem_cons_self g gs)) (gateRaise_not_id hraise)

lemma foldr_max_le (as : List Nat) (h : ∀ a ∈ as, a ≤ 10) : as.foldr max 0 ≤ 10 := by
  induction as with
  | nil => simp
  | cons a rest ih =>
    simp only [List.foldr_cons]
    exact max_le (h a (List.mem_cons_self a rest))
      (ih fun a' h' => h a' (List.mem_cons_of_mem a h'))

lemma scoreArr_eq_foldr_max (env : Env) (xs : List SingleSelector) (uri : URI) (cl : String)
    (sync : Bool) (nb : Option NotebookInfo) (ret : Nat) (hret : ret ≤ 10) :
    scoreArr env xs uri cl sync nb ret =
      max ret ((xs.map (fun x => scoreSingle env x uri cl sync nb)).foldr max 0) := by
  induction xs generalizing ret with
  | nil => simp [scoreArr]
  | cons x rest ih =>
    have hx : scoreSingle env x uri cl sync nb ≤ 10 :=
      isScoreVal_le_ten (scoreSingle_val env x uri cl sync nb)
    have hrest : (rest.map (fun x => scoreSingle env x uri cl sync nb)).foldr max 0 ≤ 10 := by
      apply foldr_max_le
      intro a ha
      obtain ⟨x', _, rfl⟩ := List.mem_map.mp ha
      exact isScoreVal_le_ten (scoreSingle_val env x' uri cl sync nb)
    simp only [scoreArr, List.map_cons, List.foldr_cons]
    split
    · rename_i hv
      rw [hv]
      omega
    · rw [ih (max ret (scoreSingle env x uri cl sync nb)) (by omega)]
      omega

lemma scoreArr_short_circuit (env : Env) (pre : List SingleSelector) (x : SingleSelector)
    (t : List SingleSelector) (uri : URI) (cl : String) (sync : Bool)
    (nb : Option NotebookInfo) (ret : Nat)
    (hx : scoreSingle env x uri cl sync nb = 10) :
    scoreArr env (pre ++ x :: t) uri cl sync nb ret = 10 := by
  induction pre generalizing ret with
  | nil => simp [scoreArr, hx]
  | cons p rest ih =>
    simp only [List.cons_append, scoreArr]
    split
    · rename_i hv
      exact hv
    · exact ih _

/-- Running the language gate before the scheme gate changes the final
score: with filter `{scheme: "*", language: "rust"}` on a candidate
`(file URI, language "rust")` the implemented order returns 10 (exact
language overwrites the wildcard-scheme 5), while the permuted order
returns 5 (the wildcard scheme overwrites the 10 with a plain
assignment, not a max). -/
theorem scoreOne_gate_order_cex :
    ([languageGate (some "rust") "rust", schemeGate (some "*") ⟨"file", "/a"⟩,
        patternGate env0 none ⟨"file", "/a"⟩].Perm
      [schemeGate (some "*") ⟨"file", "/a"⟩, languageGate (some "rust") "rust",
        patternGate env0 none ⟨"file", "/a"⟩]) ∧
    runGates [languageGate (some "rust") "rust", schemeGate (some "*") ⟨"file", "/a"⟩,
        patternGate env0 none ⟨"file", "/a"⟩] 0 = 5 ∧
    scoreOne env0 (some "*") (some "rust") none ⟨"file", "/a"⟩ "rust" = 10 :=
  ⟨List.Perm.swap _ _ _, by decide, by decide⟩

/-- C6 (amended): permuting the scheme/language/pattern gates of
`_scoreOne` does not change whether the final score is 0 (any failing
gate forces 0 in every order), though the nonzero value itself can
change. -/
theorem scoreOne_gate_order_zero (env : Env) (scheme language : Option String)
    (pattern : Option GlobPattern) (uri : URI) (cl : String)
    (l : List (Nat → Option Nat))
    (hperm : l.Perm [schemeGate scheme uri, languageGate language cl,
      patternGate env pattern uri]) :
    (runGates l 0 = 0 ↔ scoreOne env scheme language pattern uri cl = 0) := by
  rw [scoreOne_eq_runGates]
  have hok : ∀ g ∈ [schemeGate scheme uri, languageGate language cl,
      patternGate env pattern uri], GateOk g := by
    intro g hg
    simp only [List.mem_cons, List.not_mem_nil, or_false] at hg
    rcases hg with rfl | rfl | rfl
    · exact schemeGate_ok scheme uri
    · exact languageGate_ok language cl
    · exact patternGate_ok env pattern uri
  have hok' : ∀ g ∈ l, GateOk g := fun g hg => hok g (hperm.mem_iff.mp hg)
  rw [runGates_eq_zero_iff l hok' 0, runGates_eq_zero_iff _ hok 0]
  simp only [hperm.mem_iff]

/-- Closed instance of `scoreOne_gate_order_zero`: the language-first
order is nonzero exactly when the implemented order is. -/
theorem scoreOne_gate_order_zero_witness :
    (runGates [languageGate (some "rust") "rust", schemeGate (some "*") ⟨"file", "/a"⟩,
        patternGate env0 none ⟨"file", "/a"⟩] 0 = 0 ↔
      scoreOne env0 (some "*") (some "rust") none ⟨"file", "/a"⟩ "rust" = 0) :=
  scoreOne_gate_order_zero env0 (some "*") (some "rust") none ⟨"file", "/a"⟩ "rust"
    _ (List.Perm.swap _ _ _)

/-- A filter whose only clause is `notebook: "jupyter"`, scored against
a non-synchronized candidate that does carry a matching notebook
association: the overall score is 0 although the notebook sub-score is
10, so the score does not equal the notebook sub-score. -/
theorem score_notebook_unsynchronized_cex :
    score env0 (some (.single (.filter ⟨none, none, none, some (.str "jupyter"), none, none⟩)))
      ⟨"file", "/a"⟩ "x" false (some ⟨⟨"file", "/nb"⟩, "jupyter"⟩) = 0 ∧
    notebookScoreOf env0 (.str "jupyter") ⟨⟨"file", "/nb"⟩, "jupyter"⟩ = 10 := by
  constructor <;> decide

/-- C2 (amended): for a filter with a (truthy) notebook clause: a
candidate without notebook association scores 0 regardless of the other
fields; a zero notebook sub-score forces 0; and — provided the
candidate is synchronized or the filter has `hasAccessToAllModels:
true` — if none of scheme/language/pattern is set the score is the
notebook sub-score, otherwise it is 0 when the document sub-score is 0
and `max(notebookScore, documentScore)` when both are nonzero. -/
theorem score_notebook_clause (env : Env) (f : LanguageFilter) (uri : URI) (cl : String)
    (sync : Bool) (nb : Option NotebookInfo) (hnb : nbTruthy f.notebook = true) :
    (nb = none → score env (some (.single (.filter f))) uri cl sync nb = 0) ∧
    (∀ info, nb = some info →
      notebookScoreOf env (f.notebook.getD (.str "")) info = 0 →
      score env (some (.single (.filter f))) uri cl sync nb = 0) ∧
    (sync = true ∨ f.hasAccessToAllModels = some true →
      ∀ info, nb = some info →
      strTruthy f.scheme = false → strTruthy f.language = false → patTruthy f.pattern = false →
      score env (some (.single (.filter f))) uri cl sync nb =
        notebookScoreOf env (f.notebook.getD (.str "")) info) ∧
    (sync = true ∨ f.hasAccessToAllModels = some true →
      ∀ info, nb = some info →
      notebookScoreOf env (f.notebook.getD (.str "")) info ≠ 0 →
      ¬(strTruthy f.scheme = false ∧ strTruthy f.language = false ∧
        patTruthy f.pattern = false) →
      (scoreOne env f.scheme f.language f.pattern uri cl = 0 →
        score env (some (.single (.filter f))) uri cl sync nb = 0) ∧
      (scoreOne env f.scheme f.language f.pattern uri cl ≠ 0 →
        score env (some (.single (.filter f))) uri cl sync nb =
          max (notebookScoreOf env (f.notebook.getD (.str "")) info)
            (scoreOne env f.scheme f.language f.pattern uri cl))) := by
  refine ⟨?_, ?_, ?_, ?_⟩
  · intro h
    subst h
    simp [score, scoreSingle, hnb]
  · intro info h h0
    subst h
    simp [score, scoreSingle, hnb, h0]
  · intro hsync info h hs hl hp
    subst h
    have hgate : (!sync && !boolTruthy f.hasAccessToAllModels) = false := by
      rcases hsync with h | h <;> simp [h, boolTruthy]
    by_cases h0 : notebookScoreOf env (f.notebook.getD (.str "")) info = 0
    · simp [score, scoreSingle, hnb, hgate, hs, hl, hp, h0]
    · simp [score, scoreSingle, hnb, hgate, hs, hl, hp, h0]
  · intro hsync info h h0 hfields
    subst h
    have hgate : (!sync && !boolTruthy f.hasAccessToAllModels) = false := by
      rcases hsync with h | h <;> simp [h, boolTruthy]
    have hfields' : (!strTruthy f.scheme && !strTruthy f.language && !patTruthy f.pattern) = false := by
      cases hb : (!strTruthy f.scheme && !strTruthy f.language && !patTruthy f.pattern) with
      | false => rfl
      | true =>
        simp only [Bool.and_eq_true, Bool.not_eq_true'] at hb
        exact absurd ⟨hb.1.1, hb.1.2, hb.2⟩ hfields
    constructor
    · intro hd
      simp [score, scoreSingle, hnb, hgate, hfields', h0, hd]
    · intro hd
      simp [score, scoreSingle, hnb, hgate, hfields', h0, hd]

/-- Closed instance of `score_notebook_clause`: the hard notebook gate
at a concrete synchronized candidate without notebook association. -/
theorem score_notebook_clause_witness :
    score env0
      (some (.single (.filter ⟨none, none, none, some (.str "jupyter"), none, none⟩)))
      ⟨"file", "/a"⟩ "x" true none = 0 :=
  (score_notebook_clause env0 ⟨none, none, none, some (.str "jupyter"), none, none⟩
    ⟨"file", "/a"⟩ "x" true none (by decide)).1 rfl

/-- A non-synchronized candidate with language id literally `"*"`: the
filter `{hasAccessToAllModels: true, language: "*"}` scores 10 on it,
not 5, because the language gate sees an exact match before the
wildcard case. -/
theorem score_unsync_wildcard_cex :
    score env0 (some (.single (.filter ⟨some "*", none, none, none, some true, none⟩)))
      ⟨"file", "/a"⟩ "*" false none ≠ 5 ∧
    score env0 (some (.single (.filter ⟨some "*", none, none, none, some true, none⟩)))
      ⟨"file", "/a"⟩ "*" false none = 10 := by
  constructor <;> decide

/-- C5 (amended): against a non-synchronized candidate, every plain
string selector scores 0, and every filter without
`hasAccessToAllModels: true` scores 0; the filter
`{hasAccessToAllModels: true, language: "*"}` scores 5 provided the
candidate's language id is not itself the literal `"*"`. -/
theorem score_unsynchronized (env : Env) (uri : URI) (cl : String) (nb : Option NotebookInfo) :
    (∀ s : String, score env (some (.single (.str s))) uri cl false nb = 0) ∧
    (∀ f : LanguageFilter, f.hasAccessToAllModels ≠ some true →
      score env (some (.single (.filter f))) uri cl false nb = 0) ∧
    (cl ≠ "*" →
      score env (some (.single (.filter ⟨some "*", none, none, none, some true, none⟩)))
        uri cl false nb = 5) := by
  refine ⟨?_, ?_, ?_⟩
  · intro s
    simp [score, scoreSingle]
  · intro f hf
    have hb : boolTruthy f.hasAccessToAllModels = false := by
      rcases hacc : f.hasAccessToAllModels with _ | b
      · rfl
      · cases b
        · rfl
        · exact absurd hacc hf
    simp [score, scoreSingle, hb]
  · intro hcl
    simp [score, scoreSingle, boolTruthy, nbTruthy, scoreOne, schemeGate, languageGate,
      patternGate, strTruthy, patTruthy, hcl, Ne.symm hcl]

/-- Closed instance of `score_unsynchronized` at a concrete candidate. -/
theorem score_unsynchronized_witness :
    score env0 (some (.single (.str "rust"))) ⟨"file", "/a"⟩ "rust" false none = 0 ∧
    score env0 (some (.single (.filter ⟨some "*", none, none, none, none, none⟩)))
      ⟨"file", "/a"⟩ "rust" false none = 0 ∧
    score env0 (some (.single (.filter ⟨some "*", none, none, none, some true, none⟩)))
      ⟨"file", "/a"⟩ "rust" false none = 5 :=
  ⟨(score_unsynchronized env0 ⟨"file", "/a"⟩ "rust" none).1 "rust",
    (score_unsynchronized env0 ⟨"file", "/a"⟩ "rust" none).2.1
      ⟨some "*", none, none, none, none, none⟩ (by decide),
    (score_unsynchronized env0 ⟨"file", "/a"⟩ "rust" none).2.2 (by decide)⟩

/-- C10: for every selector (string, filter, array, or undefined) and
every candidate, `score` returns a value in the set {0, 5, 10}. -/
theorem score_range (env : Env) (selector : Option Selector) (uri : URI) (cl : String)
    (sync : Bool) (nb : Option NotebookInfo) :
    score env selector uri cl sync nb = 0 ∨ score env selector uri cl sync nb = 5 ∨
      score env selector uri cl sync nb = 10 :=
  score_val env selector uri cl sync nb

/-- C3: in `_scoreOne`, each of scheme/language/pattern is a veto gate:
a present (truthy) field that fails its match forces the result 0,
whatever the other fields say; in particular the filter
`{scheme: "file", language: "rust"}` scores 0 on a synchronized
candidate with language `"rust"` and any URI of scheme `"http"`. -/
theorem scoreOne_veto_gates (env : Env) (scheme language : Option String)
    (pattern : Option GlobPattern) (uri : URI) (cl : String) :
    (strTruthy scheme = true → scheme.getD "" ≠ uri.scheme → scheme.getD "" ≠ "*" →
      scoreOne env scheme language pattern uri cl = 0) ∧
    (strTruthy language = true → language.getD "" ≠ cl → language.getD "" ≠ "*" →
      scoreOne env scheme language pattern uri cl = 0) ∧
    (patTruthy pattern = true → patternMatches env (pattern.getD (.str "")) uri = false →
      scoreOne env scheme language pattern uri cl = 0) ∧
    (∀ uri' : URI, uri'.scheme = "http" →
      score env (some (.single (.filter ⟨some "rust", some "file", none, none, none, none⟩)))
        uri' "rust" true none = 0) := by
  refine ⟨?_, ?_, ?_, ?_⟩
  · intro ht h1 h2
    have hs : schemeGate scheme uri 0 = none := by simp [schemeGate, ht, h1, h2]
    simp [scoreOne, hs]
  · intro ht h1 h2
    have hl : ∀ r, languageGate language cl r = none := fun r => by
      simp [languageGate, ht, h1, h2]
    unfold scoreOne
    cases schemeGate scheme uri 0 with
    | none => rfl
    | some r1 => simp [hl r1]
  · intro ht hm
    have hp : ∀ r, patternGate env pattern uri r = none := fun r => by
      simp [patternGate, ht, hm]
    rcases hsg : schemeGate scheme uri 0 with _ | r1
    · simp [scoreOne, hsg]
    · rcases hlg : languageGate language cl r1 with _ | r2
      · simp [scoreOne, hsg, hlg]
      · simp [scoreOne, hsg, hlg, hp r2]
  · intro uri' hs
    have h : schemeGate (some "file") uri' 0 = none := by
      simp [schemeGate, strTruthy, hs]
    simp [score, scoreSingle, nbTruthy, boolTruthy, scoreOne, h]

/-- Closed instance of `scoreOne_veto_gates`: each veto clause at a
concrete failing input. -/
theorem scoreOne_veto_gates_witness :
    scoreOne env0 (some "file") (some "rust") none ⟨"http", "/a"⟩ "rust" = 0 ∧
    scoreOne env0 none (some "cpp") none ⟨"file", "/a"⟩ "rust" = 0 ∧
    scoreOne env0 none none (some (.str "/b")) ⟨"file", "/a"⟩ "rust" = 0 ∧
    score env0 (some (.single (.filter ⟨some "rust", some "file", none, none, none, none⟩)))
      ⟨"http", "/x"⟩ "rust" true none = 0 :=
  ⟨(scoreOne_veto_gates env0 (some "file") (some "rust") none ⟨"http", "/a"⟩ "rust").1
      (by decide) (by decide) (by decide),
    (scoreOne_veto_gates env0 none (some "cpp") none ⟨"file", "/a"⟩ "rust").2.1
      (by decide) (by decide) (by decide),
    (scoreOne_veto_gates env0 none none (some (.str "/b")) ⟨"file", "/a"⟩ "rust").2.2.1
      (by decide) (by decide),
    (scoreOne_veto_gates env0 none none none ⟨"http", "/x"⟩ "x").2.2.2 ⟨"http", "/x"⟩ rfl⟩

/-- C4: on an array selector, `score` is the maximum of the element
scores (0 for the empty array), and as soon as some element scores
exactly 10 the result is 10 and the elements after it are never
consulted (the result is the same for every tail). -/
theorem score_array_max_short_circuit (env : Env) (uri : URI) (cl : String) (sync : Bool)
    (nb : Option NotebookInfo) :
    (∀ xs : List SingleSelector,
      score env (some (.arr xs)) uri cl sync nb =
        (xs.map (fun x => score env (some (.single x)) uri cl sync nb)).foldr max 0) ∧
    (∀ (pre t1 t2 : List SingleSelector) (x : SingleSelector),
      score env (some (.single x)) uri cl sync nb = 10 →
      score env (some (.arr (pre ++ x :: t1))) uri cl sync nb = 10 ∧
      score env (some (.arr (pre ++ x :: t1))) uri cl sync nb =
        score env (some (.arr (pre ++ x :: t2))) uri cl sync nb) := by
  constructor
  · intro xs
    show scoreArr env xs uri cl sync nb 0 = _
    rw [scoreArr_eq_foldr_max env xs uri cl sync nb 0 (by omega)]
    simp [score]
  · intro pre t1 t2 x hx
    have h1 : scoreArr env (pre ++ x :: t1) uri cl sync nb 0 = 10 :=
      scoreArr_short_circuit env pre x t1 uri cl sync nb 0 hx
    have h2 : scoreArr env (pre ++ x :: t2) uri cl sync nb 0 = 10 :=
      scoreArr_short_circuit env pre x t2 uri cl sync nb 0 hx
    exact ⟨h1, by rw [show score env (some (.arr (pre ++ x :: t1))) uri cl sync nb = _ from h1,
      show score env (some (.arr (pre ++ x :: t2))) uri cl sync nb = _ from h2]⟩

/-- Closed instance of `score_array_max_short_circuit`: max over a
two-element array, and tail-independence after an exact-language hit. -/
theorem score_array_max_short_circuit_witness :
    score env0 (some (.arr [.str "py", .str "ts"])) ⟨"file", "/a"⟩ "ts" true none =
      ([score env0 (some (.single (.str "py"))) ⟨"file", "/a"⟩ "ts" true none,
        score env0 (some (.single (.str "ts"))) ⟨"file", "/a"⟩ "ts" true none].foldr max 0) ∧
    score env0 (some (.arr ([.str "py"] ++ .str "ts" :: [.str "x"]))) ⟨"file", "/a"⟩ "ts" true none = 10 ∧
    score env0 (some (.arr ([.str "py"] ++ .str "ts" :: [.str "x"]))) ⟨"file", "/a"⟩ "ts" true none =
      score env0 (some (.arr ([.str "py"] ++ .str "ts" :: []))) ⟨"file", "/a"⟩ "ts" true none :=
  ⟨by
    have h := (score_array_max_short_circuit env0 ⟨"file", "/a"⟩ "ts" true none).1
      [.str "py", .str "ts"]
    simpa using h,
    (score_array_max_short_circuit env0 ⟨"file", "/a"⟩ "ts" true none).2
      [.str "py"] [.str "x"] [] (.str "ts") (by decide) |>.1,
    (score_array_max_short_circuit env0 ⟨"file", "/a"⟩ "ts" true none).2
      [.str "py"] [.str "x"] [] (.str "ts") (by decide) |>.2⟩


end LanguageSelector

namespace IndentationLineProcessor

lemma removeAllOcc_single (c : Char) (s : List Char) :
    removeAllOcc [c] s = s.filter (fun x => x != c) := by
  induction s with
  | nil => simp [removeAllOcc]
  | cons a rest ih =>
    by_cases h : c = a
    · subst h
      rw [removeAllOcc]
      simp [List.isPrefixOf, ih]
    · rw [removeAllOcc]
      simp [List.isPrefixOf, Ne.symm h, h, ih]

lemma removeList_single (l : List (List Char)) (hl : ∀ b ∈ l, b.length = 1) (s : List Char) :
    removeList l s = s.filter (fun x => decide ([x] ∉ l)) := by
  induction l generalizing s with
  | nil => simp [removeList]
  | cons b rest ih =>
    obtain ⟨c, rfl⟩ := List.length_eq_one.mp (hl b (List.mem_cons_self b rest))
    have hrest : ∀ b' ∈ rest, b'.length = 1 := fun b' h' => hl b' (List.mem_cons_of_mem _ h')
    show removeList rest (removeAllOcc [c] s) = _
    rw [ih hrest, removeAllOcc_single, List.filter_filter]
    apply List.filter_congr
    intro a _
    by_cases hac : a = c
    · subst hac
      simp
    · simp [hac, List.mem_cons]

lemma removeList_perm (l l' : List (List Char)) (hperm : l.Perm l')
    (hl : ∀ b ∈ l, b.length = 1) (s : List Char) :
    removeList l s = removeList l' s := by
  rw [removeList_single l hl s,
    removeList_single l' (fun b hb => hl b (hperm.mem_iff.mpr hb)) s]
  apply List.filter_congr
  intro a _
  simp [hperm.mem_iff]

lemma removeBracketsFromText_eq_removeList (o c : List (List Char)) (line : List Char) :
    removeBracketsFromText o c line = removeList c (removeList o line) := rfl

lemma processTokens_congr (o c o' c' : List (List Char))
    (h : ∀ text, removeBracketsFromText o c text = removeBracketsFromText o' c' text)
    (ts : List Token) (e off : Nat) :
    processTokens o c ts e off = processTokens o' c' ts e off := by
  induction ts generalizing e off with
  | nil => rfl
  | cons t rest ih => simp only [processTokens, h t.text, ih]

/-- Bracket order can matter when one bracket string overlaps another:
with open brackets `ab`, `b` the `String` token `"ab"` processes to
`""`, but in the order `b`, `ab` it processes to `"a"`, although the
two flattened open-bracket lists are permutations of each other. -/
theorem processed_bracket_order_cex :
    ([['a', 'b'], ['b']] : List (List Char)).Perm [['b'], ['a', 'b']] ∧
    getProcessedLineAndTokens svcAB ⟨[⟨['a', 'b'], .String, 0⟩], "L"⟩ ≠
      getProcessedLineAndTokens svcBA ⟨[⟨['a', 'b'], .String, 0⟩], "L"⟩ := by
  have hA : getProcessedLineAndTokens svcAB ⟨[⟨['a', 'b'], .String, 0⟩], "L"⟩ =
      ⟨[], [(2, 0)]⟩ := by
    simp [getProcessedLineAndTokens, processTokens, removeBracketsFromText, svcAB,
      removeAllOcc, List.isPrefixOf, isTokenTypeToProcess]
  have hB : getProcessedLineAndTokens svcBA ⟨[⟨['a', 'b'], .String, 0⟩], "L"⟩ =
      ⟨['a'], [(2, 0)]⟩ := by
    simp [getProcessedLineAndTokens, processTokens, removeBracketsFromText, svcBA,
      removeAllOcc, List.isPrefixOf, isTokenTypeToProcess]
  refine ⟨by decide, ?_⟩
  rw [hA, hB]
  decide

/-- C7 (amended): when every bracket string is a single character,
`getProcessedLineAndTokens` does not depend on the order of the
flattened open-bracket and close-bracket lists: two configurations
whose flattened lists are permutations of each other produce the same
processed line and token table. -/
theorem getProcessedLineAndTokens_bracket_order (svc svc' : LanguageConfigService)
    (tokens : ViewLineTokens) (bs bs' : List BracketPair)
    (h1 : svc.brackets tokens.languageId = some bs)
    (h2 : svc'.brackets tokens.languageId = some bs')
    (hsingle : ∀ b ∈ (bs.map BracketPair.opens).flatten ++ (bs.map BracketPair.close).flatten,
      b.length = 1)
    (hopen : ((bs.map BracketPair.opens).flatten).Perm ((bs'.map BracketPair.opens).flatten))
    (hclose : ((bs.map BracketPair.close).flatten).Perm ((bs'.map BracketPair.close).flatten)) :
    getProcessedLineAndTokens svc tokens = getProcessedLineAndTokens svc' tokens := by
  have hsingleo : ∀ b ∈ (bs.map BracketPair.opens).flatten, b.length = 1 :=
    fun b hb => hsingle b (List.mem_append_left _ hb)
  have hsinglec : ∀ b ∈ (bs.map BracketPair.close).flatten, b.length = 1 :=
    fun b hb => hsingle b (List.mem_append_right _ hb)
  have hrb : ∀ text,
      removeBracketsFromText ((bs.map BracketPair.opens).flatten)
        ((bs.map BracketPair.close).flatten) text =
      removeBracketsFromText ((bs'.map BracketPair.opens).flatten)
        ((bs'.map BracketPair.close).flatten) text := by
    intro text
    rw [removeBracketsFromText_eq_removeList, removeBracketsFromText_eq_removeList,
      removeList_perm _ _ hopen hsingleo text,
      removeList_perm _ _ hclose hsinglec (removeList ((bs'.map BracketPair.opens).flatten) text)]
  simp only [getProcessedLineAndTokens, h1, h2]
  rw [processTokens_congr _ _ _ _ hrb tokens.tokens 0 0]

/-- Closed instance of `getProcessedLineAndTokens_bracket_order`:
reordering the single-character pairs `()` and `[]` leaves the
processed output unchanged. -/
theorem getProcessedLineAndTokens_bracket_order_witness :
    getProcessedLineAndTokens svcTwo ⟨[⟨"a(b[c".toList, .String, 7⟩], "L"⟩ =
      getProcessedLineAndTokens svcTwoR ⟨[⟨"a(b[c".toList, .String, 7⟩], "L"⟩ :=
  getProcessedLineAndTokens_bracket_order svcTwo svcTwoR
    ⟨[⟨"a(b[c".toList, .String, 7⟩], "L"⟩
    [⟨[['(']], [[')']]⟩, ⟨[['[']], [[']']]⟩] [⟨[['[']], [[']']]⟩, ⟨[['(']], [[')']]⟩]
    rfl rfl (by decide) (by decide) (by decide)

/-- C9: with no bracket configuration for the line's language,
`getProcessedLineAndTokens` returns (it never throws) and is the
identity: the original line content and the original token table. -/
theorem getProcessedLineAndTokens_no_brackets (svc : LanguageConfigService)
    (tokens : ViewLineTokens) (h : svc.brackets tokens.languageId = none) :
    getProcessedLineAndTokens svc tokens = ⟨tokens.getLineContent, tokens.toPairs⟩ := by
  simp [getProcessedLineAndTokens, h]

/-- Closed instance of `getProcessedLineAndTokens_no_brackets`. -/
theorem getProcessedLineAndTokens_no_brackets_witness :
    getProcessedLineAndTokens svcNone ⟨[⟨"a(b)c".toList, .String, 7⟩], "L"⟩ =
      ⟨(⟨[⟨"a(b)c".toList, .String, 7⟩], "L"⟩ : ViewLineTokens).getLineContent,
        (⟨[⟨"a(b)c".toList, .String, 7⟩], "L"⟩ : ViewLineTokens).toPairs⟩ :=
  getProcessedLineAndTokens_no_brackets svcNone ⟨[⟨"a(b)c".toList, .String, 7⟩], "L"⟩ rfl

/-- C1 fails on the code: with brackets `(` `)`, a `String`-tagged token
`"a(b)c"` processes to `"abc"` (length 3) but keeps the end-offset 5 of
the original text, because the loop records each token's end offset
before adding that token's own removed characters to the running
offset.  The sum of consecutive end-offset differences is 5 ≠ 3, and a
following token's end offset (7 originally) is shifted to 5 while the
edited token's own is not. -/
theorem processedLineTokens_offsets_at_bug_input :
    getProcessedLineAndTokens svcParen ⟨[⟨"a(b)c".toList, .String, 7⟩], "L"⟩ =
      ⟨"abc".toList, [(5, 7)]⟩ ∧
    ("abc".toList).length = 3 ∧
    getProcessedLineAndTokens svcParen
        ⟨[⟨"a(b)c".toList, .String, 7⟩, ⟨"xy".toList, .Other, 9⟩], "L"⟩ =
      ⟨"abcxy".toList, [(5, 7), (5, 9)]⟩ := by
  refine ⟨?_, rfl, ?_⟩ <;>
    simp [getProcessedLineAndTokens, processTokens, removeBracketsFromText, svcParen,
      removeAllOcc, List.isPrefixOf, isTokenTypeToProcess]

/-- C8: the previous-line fragment is the processed text of the
previous line's scope slice exactly when the previous line number is at
least 1, the current scope starts at column offset 0 on its own line,
and the language id at the end of the previous line equals the scope's
language id; when any condition fails it is the empty string with an
empty token set. -/
theorem getProcessedPreviousLine_conditions (svc : LanguageConfigService)
    (ctx : ScopedContext) :
    (1 ≤ ctx.startLineNumber - 1 → ctx.startsAtOffsetZero = true →
      ctx.languageId = ctx.prevLineEndLanguageId →
      getProcessedPreviousLine svc ctx = getProcessedLineAndTokens svc ctx.prevSlicedTokens) ∧
    (ctx.startLineNumber - 1 = 0 ∨ ctx.startsAtOffsetZero = false ∨
        ctx.languageId ≠ ctx.prevLineEndLanguageId →
      getProcessedPreviousLine svc ctx = ⟨[], []⟩) := by
  constructor
  · intro h1 h2 h3
    have h1' : ¬(ctx.startLineNumber - 1 = 0) := by omega
    simp [getProcessedPreviousLine, h1', h2, h3]
  · rintro (h | h | h)
    · simp [getProcessedPreviousLine, h, nullProcessedData]
    · by_cases h0 : ctx.startLineNumber - 1 = 0
      · simp [getProcessedPreviousLine, h0, nullProcessedData]
      · simp [getProcessedPreviousLine, h0, h, nullProcessedData]
    · by_cases h0 : ctx.startLineNumber - 1 = 0
      · simp [getProcessedPreviousLine, h0, nullProcessedData]
      · by_cases hz : ctx.startsAtOffsetZero
        · simp [getProcessedPreviousLine, h0, hz, h, nullProcessedData]
        · simp [getProcessedPreviousLine, h0, hz, nullProcessedData]

/-- Closed instance of `getProcessedPreviousLine_conditions`: the
fragment is the previous line's processed slice when all three
conditions hold, and empty when the scope starts at a nonzero offset. -/
theorem getProcessedPreviousLine_conditions_witness :
    getProcessedPreviousLine svcNone ⟨3, "L", true, "L", ⟨[⟨"x".toList, .Other, 0⟩], "L"⟩⟩ =
      getProcessedLineAndTokens svcNone ⟨[⟨"x".toList, .Other, 0⟩], "L"⟩ ∧
    getProcessedPreviousLine svcNone ⟨3, "L", false, "L", ⟨[⟨"x".toList, .Other, 0⟩], "L"⟩⟩ =
      ⟨[], []⟩ :=
  ⟨(getProcessedPreviousLine_conditions svcNone
      ⟨3, "L", true, "L", ⟨[⟨"x".toList, .Other, 0⟩], "L"⟩⟩).1 (by decide) rfl rfl,
    (getProcessedPreviousLine_conditions svcNone
      ⟨3, "L", false, "L", ⟨[⟨"x".toList, .Other, 0⟩], "L"⟩⟩).2 (Or.inr (Or.inl rfl))⟩


end IndentationLineProcessor
